import Mathlib

/-!
# Verification of the ccmjs testsuite core (versions/v4/ccm.testsuite.js)

Shallow embedding of the test-package walker and the per-test assertion
surface of `src/versions/v4/ccm.testsuite.js`, headless (no website area,
`self.element` absent), with an instrumentation trace recording hook and
test invocations so that hook-ordering properties can be stated.

JavaScript values are modelled by `JSVal`: `undefined`, booleans, integer
numbers, strings, and plain objects carrying a reference identity (`ref`)
plus their own enumerable fields.  String-to-number coercion is modelled
for decimal integer literals (the only strings the program's comparisons
meet in this development); all other strings coerce to NaN, represented
by `none`.
-/

namespace Testsuite

/-- A JavaScript value: `undefined`, boolean, (integer) number, string, or a
plain object with a reference identity and its fields. -/
inductive JSVal where
  | undefined : JSVal
  | bool (b : Bool) : JSVal
  | num (n : Int) : JSVal
  | str (s : String) : JSVal
  | obj (ref : Nat) (fields : List (String × JSVal)) : JSVal

/-- Parses a nonempty all-digit character list as a natural number. -/
def parseNat (cs : List Char) : Option Nat :=
  if cs ≠ [] ∧ cs.all (fun c => c.isDigit) then
    some (cs.foldl (fun n c => n * 10 + (c.toNat - 48)) 0)
  else none

/-- `ToNumber` on a string: `""` coerces to `0`, a decimal integer literal to
its value, anything else to NaN (`none`). -/
def strToNum (s : String) : Option Int :=
  match s.data with
  | [] => some 0
  | '-' :: rest => (parseNat rest).map (fun n => -(n : Int))
  | cs => (parseNat cs).map (fun n => (n : Int))

/-- `ToNumber` restricted to the values of the model; `none` is NaN.
`ToPrimitive` of a plain object is the string `"[object Object]"`, whose
`ToNumber` is NaN. -/
def toNumber : JSVal → Option Int
  | .undefined => none
  | .bool b => some (if b then 1 else 0)
  | .num n => some n
  | .str s => strToNum s
  | .obj _ _ => none

/-- JavaScript truthiness (the coercion an `if`-condition applies). -/
def truthy : JSVal → Bool
  | .undefined => false
  | .bool b => b
  | .num n => n != 0
  | .str s => s != ""
  | .obj _ _ => true

/-- Strict equality `===`: no coercion, objects compare by reference. -/
def strictEq : JSVal → JSVal → Bool
  | .undefined, .undefined => true
  | .bool a, .bool b => a == b
  | .num a, .num b => a == b
  | .str a, .str b => a == b
  | .obj r _, .obj r' _ => r == r'
  | _, _ => false

/-- Loose equality `==` (ES2023 §7.2.14) restricted to the model's values:
same-type comparisons are strict; number/string compares after `ToNumber`
of the string; a boolean is converted to a number first; an object compares
to a string/number via `ToPrimitive`, which for a plain object yields
`"[object Object]"` (so object vs. number is NaN vs. number, i.e. false);
`undefined` is loosely equal only to itself (`null` is not modelled). -/
def looseEq : JSVal → JSVal → Bool
  | .undefined, .undefined => true
  | .bool a, .bool b => a == b
  | .num a, .num b => a == b
  | .str a, .str b => a == b
  | .obj r _, .obj r' _ => r == r'
  | .num a, .str s => strToNum s == some a
  | .str s, .num a => strToNum s == some a
  | .bool a, .num n => (if a then (1 : Int) else 0) == n
  | .num n, .bool a => n == (if a then (1 : Int) else 0)
  | .bool a, .str s => strToNum s == some (if a then (1 : Int) else 0)
  | .str s, .bool a => strToNum s == some (if a then (1 : Int) else 0)
  | .str s, .obj _ _ => s == "[object Object]"
  | .obj _ _, .str s => s == "[object Object]"
  | _, _ => false

/-- A JSON string literal (the strings of this development need no escapes). -/
def jsonQuote (s : String) : String := "\"" ++ s ++ "\""

mutual

/-- `JSON.stringify`: `undefined` serializes to nothing (`none`), primitives
to their literal form, objects to `{"k":v,...}`; object properties whose
value serializes to nothing are skipped. -/
def jsonStringify : JSVal → Option String
  | .undefined => none
  | .bool b => some (if b then "true" else "false")
  | .num n => some (toString n)
  | .str s => some (jsonQuote s)
  | .obj _ fields => some ("\x7b" ++ String.intercalate "," (jsonFields fields) ++ "\x7d")

/-- Serializes the fields of an object for `jsonStringify`. -/
def jsonFields : List (String × JSVal) → List String
  | [] => []
  | (k, v) :: rest =>
    (match jsonStringify v with
     | none => []
     | some sv => [jsonQuote k ++ ":" ++ sv]) ++ jsonFields rest

end

/-- `JSON.stringify` as a value: a string, or `undefined` when the argument
does not serialize (as when `assertNotEquals` stringifies `undefined`). -/
def jsonStringifyVal (v : JSVal) : JSVal :=
  match jsonStringify v with
  | some s => .str s
  | none => .undefined

/-- `typeof v === "object"` for the model's values (`null` is not modelled). -/
def isObjType : JSVal → Bool
  | .obj _ _ => true
  | _ => false

/-- `v === undefined` (the check `showResult` applies to `suite.expected` and
`suite.actual`). -/
def isUndefined : JSVal → Bool
  | .undefined => true
  | _ => false

/-- The per-test suite object's result-relevant fields.  `result`, `message`,
`expected`, `actual` start out `undefined` (`none` / `.undefined`); `abort`
starts out `undefined`, which is falsy, so it is modelled as `false`. -/
structure Suite where
  result : Option Bool := none
  abort : Bool := false
  message : Option String := none
  expected : JSVal := .undefined
  actual : JSVal := .undefined

/-- The `message` argument of `setResult`: absent, a string, or an
`{expected, actual}` object. -/
inductive Msg where
  | undefined : Msg
  | str (s : String) : Msg
  | pair (expected actual : JSVal) : Msg

/-- Truthiness of the `message` argument (`!message`): `undefined` and the
empty string are falsy, an object is always truthy. -/
def Msg.isTruthy : Msg → Bool
  | .undefined => false
  | .str s => s != ""
  | .pair _ _ => true

/-- `setResult(result, message)` of the source: a no-op when `suite.abort` is
set; records `result`; on success returns at once; on failure latches
`abort` and, when `message` is truthy, stores it as `message` (string) or
as `expected`/`actual` (object). -/
def setResult (suite : Suite) (result : Bool) (message : Msg) : Suite :=
  if suite.abort then suite
  else
    let suite := { suite with result := some result }
    if result then suite
    else
      let suite := { suite with abort := true }
      if message.isTruthy then
        match message with
        | .str s => { suite with message := some s }
        | .pair e a => { suite with expected := e, actual := a }
        | .undefined => suite
      else suite

/-- One step a test or hook body can take against the suite: the eight
assertion operations, or throwing an error. -/
inductive Action where
  | passed : Action
  | failed (message : Option String) : Action
  | assertTrue (condition : JSVal) : Action
  | assertFalse (condition : JSVal) : Action
  | assertSame (expected actual : JSVal) : Action
  | assertEquals (expected actual : JSVal) (delta : Option Int) : Action
  | assertNotSame (expected actual : JSVal) : Action
  | assertNotEquals (expected actual : JSVal) : Action
  | throwErr (name message : String) : Action

/-- Applies one assertion operation to the suite, exactly as the
corresponding method of the source's `suite` object:
`passed` / `failed` / `assertTrue` / `assertFalse` record via `setResult`
with no payload (for `failed`, the optional message);
`assertSame` compares with loose `==` and records `{expected, actual}`;
`assertEquals` first serializes object-typed arguments to JSON, then
compares with `===` (or `|expected - actual| < delta` when `delta` is
truthy) and records the (post-serialization) pair;
`assertNotSame` compares with strict `!==` and records no pair;
`assertNotEquals` serializes both arguments and delegates to
`assertNotSame` on the serialized forms.
`throwErr` leaves the suite unchanged (the raised error is handled by
`runActions`). -/
def applyAction : Action → Suite → Suite
  | .passed, s => setResult s true .undefined
  | .failed m, s => setResult s false (match m with | none => .undefined | some t => .str t)
  | .assertTrue c, s => setResult s (truthy c) .undefined
  | .assertFalse c, s => setResult s (!truthy c) .undefined
  | .assertSame e a, s => setResult s (looseEq e a) (.pair e a)
  | .assertEquals e a delta, s =>
    let e := if isObjType e then jsonStringifyVal e else e
    let a := if isObjType a then jsonStringifyVal a else a
    let cond := match delta with
      | some d =>
        if d != 0 then
          match toNumber e, toNumber a with
          | some x, some y => ((x - y).natAbs : Int) < d
          | _, _ => false
        else strictEq e a
      | none => strictEq e a
    setResult s cond (.pair e a)
  | .assertNotSame e a, s => setResult s (!strictEq e a) .undefined
  | .assertNotEquals e a, s =>
    setResult s (!strictEq (jsonStringifyVal e) (jsonStringifyVal a)) .undefined
  | .throwErr _ _, s => s

/-- A thrown JavaScript error, reduced to its `name` and `message`. -/
structure JSError where
  name : String
  message : String
deriving DecidableEq

/-- Runs a test or hook body: applies its actions in order until the first
`throwErr`, which ends the body and surfaces the error. -/
def runActions : Suite → List Action → Suite × Option JSError
  | s, [] => (s, none)
  | s, .throwErr n m :: _ => (s, some ⟨n, m⟩)
  | s, a :: rest => runActions (applyAction a s) rest

/-- `e.name + (e.message ? ": " + e.message : "")` — the failure message the
walker records for an error thrown by a test body. -/
def mkErrMsg (e : JSError) : String :=
  e.name ++ (if e.message = "" then "" else ": " ++ e.message)

/-- A setup or finalize hook: an identifier (for the instrumentation trace)
and the steps its body takes against the suite it receives. -/
structure Hook where
  id : String
  actions : List Action

/-- A unit test: its function `name` and the steps of its body. -/
structure Test where
  name : String
  actions : List Action

/-- A test package tree node: optional `setup` hook, optional `tests`
property (present even when it holds no tests, mirroring `package_obj.tests
&&`), optional `finally` hook, and the remaining keys, each a subpackage. -/
inductive Pkg where
  | mk (setup : Option Hook) (tests : Option (List Test)) (final : Option Hook)
      (children : List (String × Pkg)) : Pkg

/-- The `setup` property of a package. -/
def Pkg.setup : Pkg → Option Hook
  | .mk s _ _ _ => s

/-- The `tests` property of a package. -/
def Pkg.tests : Pkg → Option (List Test)
  | .mk _ t _ _ => t

/-- The `finally` property of a package. -/
def Pkg.final : Pkg → Option Hook
  | .mk _ _ f _ => f

/-- The subpackage keys of a package (the keys left after `setup`, `tests`
and `finally` are removed), in key-iteration order. -/
def Pkg.children : Pkg → List (String × Pkg)
  | .mk _ _ _ c => c

/-- One entry of the instrumentation trace: a setup hook, a test body, or a
finalize hook was invoked, with the serial number of the suite object it
received. -/
inductive Event where
  | setupRun (id : String) (suite : Nat) : Event
  | testRun (name : String) (suite : Nat) : Event
  | finalRun (id : String) (suite : Nat) : Event
deriving DecidableEq

/-- One entry of `results.details`: the raw `suite.result` (possibly still
`undefined`), the failure message, or the `{expected, actual}` pair. -/
inductive Detail where
  | res (r : Option Bool) : Detail
  | msg (s : String) : Detail
  | pair (expected actual : JSVal) : Detail

/-- The run's mutable state: the `results` counters and details, plus
instrumentation (`nextSuite` numbers the per-test suite objects, `trace`
records hook and test invocations). -/
structure St where
  executed : Nat := 0
  passed : Nat := 0
  failed : Nat := 0
  details : List (String × Detail) := []
  nextSuite : Nat := 0
  trace : List Event := []

/-- Writes a key of the `results.details` object: overwrites in place when
the key exists, otherwise appends (JavaScript property insertion order). -/
def setDetail (details : List (String × Detail)) (key : String) (value : Detail) :
    List (String × Detail) :=
  if details.any (fun p => p.1 == key) then
    details.map (fun p => if p.1 == key then (key, value) else p)
  else details ++ [(key, value)]

/-- Truthiness of `suite.result` (a boolean or still `undefined`). -/
def resTruthy : Option Bool → Bool
  | some b => b
  | none => false

/-- Truthiness of `suite.message` (a string or still `undefined`). -/
def msgTruthy : Option String → Bool
  | some s => s != ""
  | none => false

/-- `showResult()` of the source, headless: increments `passed` or `failed`
by the truthiness of `suite.result`, stores `suite.result` under the detail
key `package_path + "." + test.name`, overwrites it with `suite.message`
when that is truthy, and overwrites again with the `{expected, actual}`
pair when the test failed and both values are not `undefined`. -/
def showResult (packagePath testName : String) (suite : Suite) (st : St) : St :=
  let st :=
    if resTruthy suite.result then { st with passed := st.passed + 1 }
    else { st with failed := st.failed + 1 }
  let key := packagePath ++ "." ++ testName
  let st := { st with details := setDetail st.details key (.res suite.result) }
  let st :=
    match suite.message with
    | some m =>
      if m != "" then { st with details := setDetail st.details key (.msg m) } else st
    | none => st
  if !resTruthy suite.result && !(isUndefined suite.expected) && !(isUndefined suite.actual) then
    { st with details := setDetail st.details key (.pair suite.expected suite.actual) }
  else st

/-- Runs a list of hooks against the suite, sequentially, logging each
invocation with the suite's serial number; an error thrown by a hook ends
the loop and propagates. -/
def runHooks (mkEv : String → Nat → Event) (sid : Nat) :
    List Hook → Suite → St → Suite × St × Option JSError
  | [], suite, st => (suite, st, none)
  | h :: rest, suite, st =>
    let st := { st with trace := st.trace ++ [mkEv h.id sid] }
    match runActions suite h.actions with
    | (suite, some e) => (suite, st, some e)
    | (suite, none) => runHooks mkEv sid rest suite st

/-- One iteration of the walker's per-test loop: create a fresh suite, run
the setup hooks (an error there propagates with no test executed), increment
`executed`, run the test body catching a thrown error — recorded as a
failure via `setResult` unless `suite.abort` is already set — then
`showResult`, then the finalize hooks on the same suite (an error there
propagates after the result was already recorded). -/
def runOneTest (packagePath : String) (setups finallies : List Hook) (test : Test)
    (st : St) : St × Option JSError :=
  let sid := st.nextSuite
  let st := { st with nextSuite := sid + 1 }
  let suite : Suite := {}
  match runHooks Event.setupRun sid setups suite st with
  | (_, st, some e) => (st, some e)
  | (suite, st, none) =>
    let st := { st with executed := st.executed + 1 }
    let st := { st with trace := st.trace ++ [Event.testRun test.name sid] }
    let (suite, err) := runActions suite test.actions
    let suite :=
      match err with
      | some e => if !suite.abort then setResult suite false (.str (mkErrMsg e)) else suite
      | none => suite
    let st := showResult packagePath test.name suite st
    match runHooks Event.finalRun sid finallies suite st with
    | (_, st, e) => (st, e)

/-- `runPackageTests`: runs the package's directly contained tests in key
order, sequentially; an error propagating out of one test's lifecycle stops
the loop. -/
def runPackageTests (packagePath : String) (setups finallies : List Hook) :
    List Test → St → St × Option JSError
  | [], st => (st, none)
  | t :: rest, st =>
    match runOneTest packagePath setups finallies t st with
    | (st, some e) => (st, some e)
    | (st, none) => runPackageTests packagePath setups finallies rest st

mutual

/-- `processPackage` of the source: append the package's own `setup` to a
copy of the inherited setups, prepend its `finally` to a copy of the
inherited finalizers, run the directly contained tests (when the `tests`
property is present), then recurse into the subpackages in key order with
the extended hook lists.  An error propagates and stops the traversal. -/
def processPackage (packagePath : String) (pkg : Pkg) (setups finallies : List Hook)
    (st : St) : St × Option JSError :=
  match pkg with
  | .mk setup tests final children =>
    let setups := match setup with | some h => setups ++ [h] | none => setups
    let finallies := match final with | some h => h :: finallies | none => finallies
    let (st, err) :=
      match tests with
      | some ts => runPackageTests packagePath setups finallies ts st
      | none => (st, none)
    match err with
    | some e => (st, some e)
    | none => processChildren packagePath children setups finallies st

/-- The subpackage loop of `processPackage`: each child is processed under
the path `package_path ? package_path + "." + key : key`. -/
def processChildren (packagePath : String) (children : List (String × Pkg))
    (setups finallies : List Hook) (st : St) : St × Option JSError :=
  match children with
  | [] => (st, none)
  | (key, sub) :: rest =>
    match processPackage (if packagePath = "" then key else packagePath ++ "." ++ key)
        sub setups finallies st with
    | (st, some e) => (st, some e)
    | (st, none) => processChildren packagePath rest setups finallies st

end

/-- Looks up a subpackage by key (`this.tests[array.shift()]`, restricted to
the package-valued properties). -/
def Pkg.child (pkg : Pkg) (key : String) : Option Pkg :=
  (pkg.children.find? (fun p => p.1 == key)).map (·.2)

/-- The navigation loop of `ready()`: walks the dot-separated path segments,
collecting each visited node's `setup` (appended) and `finally` (prepended)
along the way and descending by key; reading a property of `undefined`
(a missing intermediate node) throws a `TypeError`. -/
def navigate : List String → Option Pkg → List Hook → List Hook →
    Except JSError (List Hook × List Hook × Option Pkg)
  | [], tests, setups, finallies => .ok (setups, finallies, tests)
  | _ :: _, none, _, _ =>
    .error ⟨"TypeError", "Cannot read properties of undefined"⟩
  | seg :: rest, some pkg, setups, finallies =>
    let setups := match pkg.setup with | some h => setups ++ [h] | none => setups
    let finallies := match pkg.final with | some h => h :: finallies | none => finallies
    navigate rest (pkg.child seg) setups finallies

/-- A whole run, headless: the `ready()` phase (skipped entirely when the
root package path is absent or empty, because of `if (!this.package)
return;` — `this.tests` then remains the full tests tree) followed by the
`start()` phase, which initializes fresh results and processes
`self.package` / `self.tests` with the collected hooks.  A missing
navigation target leaves `this.tests` `undefined`, which `processPackage`
defaults to the empty package. -/
def run (packagePath : Option String) (tests : Pkg) : St × Option JSError :=
  let path := match packagePath with | some p => p | none => ""
  if path = "" then processPackage path tests [] [] {}
  else
    match navigate (path.splitOn ".") (some tests) [] [] with
    | .error e => ({}, some e)
    | .ok (setups, finallies, target) =>
      match target with
      | some pkg => processPackage path pkg setups finallies {}
      | none => processPackage path (Pkg.mk none none none []) setups finallies {}

/-! ## Concrete packages and values used to settle the claims -/

/-- Setup hook `S1` of the claim-C1 package tree. -/
def hookS1 : Hook := ⟨"S1", []⟩

/-- Setup hook `S2` of the claim-C1 package tree. -/
def hookS2 : Hook := ⟨"S2", []⟩

/-- Finalize hook `F1` of the claim-C1 package tree. -/
def hookF1 : Hook := ⟨"F1", []⟩

/-- Finalize hook `F2` of the claim-C1 package tree. -/
def hookF2 : Hook := ⟨"F2", []⟩

/-- The unit test `t` (body: `suite.passed()`). -/
def testT : Test := ⟨"t", [.passed]⟩

/-- The unit test `u` (body: `suite.passed()`). -/
def testU : Test := ⟨"u", [.passed]⟩

/-- The package tree
`\x7bsetup: S1, tests: \x7bt: T\x7d, finally: F1, child: \x7bsetup: S2,
tests: \x7bu: U\x7d, finally: F2\x7d\x7d`. -/
def c1Pkg : Pkg :=
  .mk (some hookS1) (some [testT]) (some hookF1)
    [("child", .mk (some hookS2) (some [testU]) (some hookF2) [])]

/-- A tests tree holding the single passing test `t`. -/
def oneTestPkg : Pkg := .mk none (some [testT]) none []

/-- A package whose single test calls `assertSame(1, "1")` first. -/
def samePkg : Pkg := .mk none (some [⟨"t", [.assertSame (.num 1) (.str "1")]⟩]) none []

/-- A package whose single test calls `assertNotSame(1, "1")` first. -/
def notSamePkg : Pkg := .mk none (some [⟨"t", [.assertNotSame (.num 1) (.str "1")]⟩]) none []

/-- The object literal `\x7ba: 1\x7d` with reference identity `0`. -/
def objA : JSVal := .obj 0 [("a", .num 1)]

/-- A second, distinct object literal `\x7ba: 1\x7d` (reference identity `1`)
with the same content as `objA`. -/
def objA' : JSVal := .obj 1 [("a", .num 1)]

/-- A test that calls `suite.failed("boom")` and then throws. -/
def boomTest : Test := ⟨"t", [.failed (some "boom"), .throwErr "Error" "x"]⟩

/-- A package whose `finally` hook throws, with a passing test of its own and
a subpackage holding a further test. -/
def c9Pkg : Pkg :=
  .mk none (some [testT]) (some ⟨"F", [.throwErr "Error" "x"]⟩)
    [("c", .mk none (some [testU]) none [])]

/-- The suite after a failing `assertSame(undefined, 1)`: `expected` is
recorded as `undefined`, `actual` as `1`. -/
def undefSameSuite : Suite := (runActions {} [.assertSame .undefined (.num 1)]).1

/-! ## Helper lemmas -/

/-- Once `suite.abort` is set, every assertion operation leaves the suite
unchanged (`setResult` returns at once). -/
theorem applyAction_abort (a : Action) (s : Suite) (h : s.abort = true) :
    applyAction a s = s := by
  cases a <;> simp [applyAction, setResult, h]

/-- Once `suite.abort` is set, a whole sequence of assertion operations
leaves the suite unchanged. -/
theorem runActions_abort (s : Suite) (acts : List Action) (h : s.abort = true) :
    (runActions s acts).1 = s := by
  induction acts with
  | nil => rfl
  | cons a rest ih =>
    cases a
    case throwErr n m => rfl
    all_goals simp [runActions, applyAction_abort _ _ h, ih]

/-- A string with a nonempty left part is nonempty. -/
theorem append_left_ne_empty (a b : String) (h : a ≠ "") : a ++ b ≠ "" := by
  intro hc
  apply h
  have hd := congrArg String.data hc
  simp only [String.data_append] at hd
  rcases List.append_eq_nil.mp hd with ⟨ha, _⟩
  cases a
  simp_all

/-- When some entry carries the key, overwriting in place makes the key's
lookup find the new value. -/
theorem lookup_map_overwrite (k : String) (v : Detail) (d : List (String × Detail))
    (h : (d.any fun q => q.1 == k) = true) :
    (d.map fun p => if p.1 == k then (k, v) else p).lookup k = some v := by
  induction d with
  | nil => simp at h
  | cons p d ih =>
    simp only [List.map_cons]
    by_cases hpk : (p.1 == k) = true
    · rw [if_pos hpk]
      simp [List.lookup]
    · rw [if_neg hpk]
      have hb : (p.1 == k) = false := Bool.eq_false_iff.mpr hpk
      have hb' : (k == p.1) = false :=
        beq_eq_false_iff_ne.mpr (Ne.symm (beq_eq_false_iff_ne.mp hb))
      have ht : (d.any fun q => q.1 == k) = true := by
        simpa [List.any_cons, hb] using h
      simp only [List.lookup, hb']
      simpa using ih ht

/-- When no entry carries the key, appending it makes the key's lookup find
the appended value. -/
theorem lookup_append_fresh (k : String) (v : Detail) (d : List (String × Detail))
    (h : (d.any fun q => q.1 == k) = false) :
    (d ++ [(k, v)]).lookup k = some v := by
  induction d with
  | nil => simp [List.lookup]
  | cons p d ih =>
    have hb : (p.1 == k) = false := by
      rcases List.any_eq_false.mp h with hall
      exact Bool.eq_false_iff.mpr fun hc => (hall p (by simp)) hc
    have hb' : (k == p.1) = false :=
      beq_eq_false_iff_ne.mpr (Ne.symm (beq_eq_false_iff_ne.mp hb))
    have ht : (d.any fun q => q.1 == k) = false := by
      rcases List.any_eq_false.mp h with hall
      exact List.any_eq_false.mpr fun q hq => hall q (by simp [hq])
    simp [List.lookup, hb', ih ht]

/-- Writing a key of the details object makes it the value any later lookup
of that key finds. -/
theorem setDetail_lookup (d : List (String × Detail)) (k : String) (v : Detail) :
    (setDetail d k v).lookup k = some v := by
  unfold setDetail
  by_cases h : (d.any fun q => q.1 == k) = true
  · simpa [h] using lookup_map_overwrite k v d h
  · have hf : (d.any fun q => q.1 == k) = false := Bool.eq_false_iff.mpr h
    simpa [hf] using lookup_append_fresh k v d hf

/-- The value `showResult` leaves under the detail key
`package_path + "." + test.name`: the `{expected, actual}` pair when the
test failed and both values are defined (it is written last and
overwrites); otherwise the truthy message when one was stored (it
overwrites the raw result); otherwise the raw `suite.result`. -/
theorem showResult_detail_lookup (packagePath testName : String) (suite : Suite) (st : St) :
    (showResult packagePath testName suite st).details.lookup (packagePath ++ "." ++ testName) =
      some (if !resTruthy suite.result && !isUndefined suite.expected && !isUndefined suite.actual
            then .pair suite.expected suite.actual
            else match suite.message with
                 | some m => if m != "" then .msg m else .res suite.result
                 | none => .res suite.result) := by
  unfold showResult
  cases hres : resTruthy suite.result with
  | true =>
    simp only [hres, Bool.not_true, Bool.false_and, Bool.false_eq_true, if_false, if_true]
    cases hmsg : suite.message with
    | none => simp [setDetail_lookup]
    | some m =>
      by_cases hm : (m != "") = true
      · simp [hm, setDetail_lookup]
      · simp [Bool.eq_false_iff.mpr hm, setDetail_lookup]
  | false =>
    simp only [hres, Bool.not_false, Bool.true_and, Bool.false_eq_true, if_false]
    by_cases hu : (!isUndefined suite.expected && !isUndefined suite.actual) = true
    · simp only [hu, if_true]
      cases hmsg : suite.message with
      | none => simp [setDetail_lookup]
      | some m =>
        by_cases hm : (m != "") = true
        · simp [hm, setDetail_lookup]
        · simp [Bool.eq_false_iff.mpr hm, setDetail_lookup]
    · have hu' : (!isUndefined suite.expected && !isUndefined suite.actual) = false :=
        Bool.eq_false_iff.mpr hu
      simp only [hu', Bool.false_eq_true, if_false]
      cases hmsg : suite.message with
      | none => simp [setDetail_lookup]
      | some m =>
        by_cases hm : (m != "") = true
        · simp [hm, setDetail_lookup]
        · simp [Bool.eq_false_iff.mpr hm, setDetail_lookup]

/-! ## Claim theorems -/

/-- Claim C1: processing the package tree `c1Pkg` (setup `S1`, test `t`,
finalizer `F1`, child with setup `S2`, test `u`, finalizer `F2`) runs, for
test `t`, the hooks `[S1]` before it and `[F1]` after it, and for test `u`
the hooks `[S1, S2]` in that order before it and `[F2, F1]` in that order
after it, every hook invocation carrying the same suite serial number as
the test it surrounds (suite `0` for `t`, suite `1` for `u`), and the run
completes without error. -/
theorem hook_order_per_test :
    (processPackage "pkg" c1Pkg [] [] {}).1.trace =
      [.setupRun "S1" 0, .testRun "t" 0, .finalRun "F1" 0,
       .setupRun "S1" 1, .setupRun "S2" 1, .testRun "u" 1,
       .finalRun "F2" 1, .finalRun "F1" 1] ∧
    (processPackage "pkg" c1Pkg [] [] {}).2 = none :=
  ⟨rfl, rfl⟩

/-- Claim C2, counterexample: the first call on a Suite is not terminal when
it records success — after `passed()` the result is `true`, and a
subsequent `failed("x")` on the same Suite overwrites it to `false`, so the
subsequent call is not a no-op and the first recorded outcome is not
final. -/
theorem passing_call_not_terminal :
    (applyAction .passed {}).result = some true ∧
    (applyAction (.failed (some "x")) (applyAction .passed {})).result = some false :=
  ⟨rfl, rfl⟩

/-- Claim C2 (amended): only a call that records a failure is terminal —
`setResult` latches `abort` exactly on failure, and once `abort` is set
every subsequent assertion operation (and hence every sequence of them) on
the same Suite is a no-op, leaving `result`, `message`, `expected` and
`actual` unchanged; a successful first outcome can still be overwritten. -/
theorem abort_latch_noop :
    (∀ (a : Action) (s : Suite), s.abort = true → applyAction a s = s) ∧
    (∀ (s : Suite) (acts : List Action), s.abort = true → (runActions s acts).1 = s) :=
  ⟨fun a s h => applyAction_abort a s h, fun s acts h => runActions_abort s acts h⟩

/-- Witness for `abort_latch_noop`: after `failed("boom")` the abort latch is
set, and a subsequent `passed()` leaves the Suite unchanged. -/
theorem abort_latch_noop_witness :
    (applyAction (.failed (some "boom")) {}).abort = true ∧
    applyAction .passed (applyAction (.failed (some "boom")) {}) =
      applyAction (.failed (some "boom")) {} :=
  ⟨rfl, abort_latch_noop.1 .passed (applyAction (.failed (some "boom")) {}) rfl⟩

/-- Claim C3, counterexample: with an empty or absent root package path the
run is not a no-op — on a tree with one passing test, the whole tree is
processed: the test runs and `executed` and `passed` are `1`, not `0`. -/
theorem empty_path_not_noop :
    (run none oneTestPkg).1.executed = 1 ∧
    (run none oneTestPkg).1.passed = 1 ∧
    (run (some "") oneTestPkg).1.executed = 1 ∧
    (run none oneTestPkg).1.trace = [.testRun "t" 0] :=
  ⟨rfl, rfl, rfl, rfl⟩

/-- Claim C3 (amended): when the root package path is empty or absent,
`ready()` skips only the navigation (`if (!this.package) return;`), so the
run processes the entire tests tree from the root, with an empty package
path and no pre-collected hooks; the counters therefore reflect all tests
in the tree and are zero only when the tree contains none. -/
theorem empty_path_processes_whole_tree :
    (∀ tests : Pkg, run none tests = processPackage "" tests [] [] {}) ∧
    (∀ tests : Pkg, run (some "") tests = processPackage "" tests [] [] {}) :=
  ⟨fun _ => rfl, fun _ => rfl⟩

/-- Claim C4: `assertSame` compares with loose `==` while `assertNotSame`
compares with strict `!==`, so for `1` and `"1"` (loosely equal, not
strictly equal) both operations succeed: a test whose first assertion is
`assertSame(1, "1")` is recorded passed, and a test whose first assertion
is `assertNotSame(1, "1")` is also recorded passed. -/
theorem loose_strict_asymmetry_both_pass :
    looseEq (.num 1) (.str "1") = true ∧
    strictEq (.num 1) (.str "1") = false ∧
    (processPackage "p" samePkg [] [] {}).1.passed = 1 ∧
    (processPackage "p" samePkg [] [] {}).1.details.lookup "p.t" = some (.res (some true)) ∧
    (processPackage "p" notSamePkg [] [] {}).1.passed = 1 ∧
    (processPackage "p" notSamePkg [] [] {}).1.details.lookup "p.t" = some (.res (some true)) :=
  ⟨rfl, rfl, rfl, rfl, rfl, rfl⟩

/-- Claim C7: `assertEquals` serializes object-typed arguments to JSON
before comparing, so `assertEquals(objA, objA')` on two distinct objects of
equal content (both serialize to the string `\x7b"a":1\x7d`) records
success, while `assertSame(objA, objA')` records failure, because loose
equality on two objects compares their references. -/
theorem assertEquals_structural_assertSame_reference :
    jsonStringify objA = some "\x7b\"a\":1\x7d" ∧
    jsonStringify objA' = some "\x7b\"a\":1\x7d" ∧
    (applyAction (.assertEquals objA objA' none) {}).result = some true ∧
    (applyAction (.assertSame objA objA') {}).result = some false ∧
    (∀ (r r' : Nat) (f f' : List (String × JSVal)),
      looseEq (.obj r f) (.obj r' f') = (r == r')) :=
  ⟨rfl, rfl, rfl, rfl, fun _ _ _ _ => rfl⟩

/-- Claim C6: for every suite and state, `showResult` stores the test's
detail entry under the flat string key `package_path + "." + test.name`,
and the stored value follows the write precedence of the source: the raw
boolean result first, overwritten by the message when one is present,
overwritten by the `\x7bexpected, actual\x7d` pair when the test failed and
both values are defined. -/
theorem detail_key_and_precedence (packagePath testName : String) (suite : Suite) (st : St) :
    (showResult packagePath testName suite st).details.lookup (packagePath ++ "." ++ testName) =
      some (if !resTruthy suite.result && !isUndefined suite.expected && !isUndefined suite.actual
            then .pair suite.expected suite.actual
            else match suite.message with
                 | some m => if m != "" then .msg m else .res suite.result
                 | none => .res suite.result) :=
  showResult_detail_lookup packagePath testName suite st

/-- Claim C10: when `suite.expected` or `suite.actual` is `undefined`, the
`\x7bexpected, actual\x7d` pair is not stored: the detail entry remains the
raw boolean result or the message string. -/
theorem pair_requires_both_defined (packagePath testName : String) (suite : Suite) (st : St)
    (h : isUndefined suite.expected = true ∨ isUndefined suite.actual = true) :
    (showResult packagePath testName suite st).details.lookup (packagePath ++ "." ++ testName) =
      some (match suite.message with
            | some m => if m != "" then .msg m else .res suite.result
            | none => .res suite.result) := by
  have hc : (!resTruthy suite.result && !isUndefined suite.expected && !isUndefined suite.actual)
      = false := by
    rcases h with h | h <;> simp [h]
  rw [showResult_detail_lookup, hc]
  simp

/-- Witness for `pair_requires_both_defined`: after a failing
`assertSame(undefined, 1)` the recorded `expected` is `undefined`, so the
detail entry is the plain boolean `false`, not a pair. -/
theorem pair_requires_both_defined_witness :
    (showResult "p" "t" undefSameSuite {}).details.lookup ("p" ++ "." ++ "t") =
      some (.res (some false)) :=
  pair_requires_both_defined "p" "t" undefSameSuite {} (Or.inl rfl)

/-- Claim C9: a throwing setup hook is not recovered: for every package
whose own setup hook throws as its first step and that has at least one
test (shown here with no inherited setups), `processPackage` returns the
hook's error, the counters and details are untouched, and no test or
subpackage is processed — only the setup invocation is traced.  A throwing
finalizer likewise propagates after the test's result was recorded and
aborts the rest of the traversal: on `c9Pkg` the run ends with the
finalizer's error, and the subpackage's test `u` never appears in the
trace.  (Test-body errors, by contrast, are caught; see the claim-C5
theorem.) -/
theorem hook_fault_propagates :
    (∀ (n m hid : String) (hrest : List Action) (t : Test) (ts : List Test)
       (final : Option Hook) (children : List (String × Pkg)) (packagePath : String)
       (finallies : List Hook) (st : St),
      processPackage packagePath
          (.mk (some ⟨hid, .throwErr n m :: hrest⟩) (some (t :: ts)) final children)
          [] finallies st =
        ({ st with nextSuite := st.nextSuite + 1,
                   trace := st.trace ++ [.setupRun hid st.nextSuite] }, some ⟨n, m⟩)) ∧
    (processPackage "p" c9Pkg [] [] {}).2 = some ⟨"Error", "x"⟩ ∧
    (processPackage "p" c9Pkg [] [] {}).1 =
      { executed := 1, passed := 1, failed := 0,
        details := [("p.t", .res (some true))],
        nextSuite := 1, trace := [.testRun "t" 0, .finalRun "F" 0] } := by
  refine ⟨?_, rfl, rfl⟩
  intro n m hid hrest t ts final children packagePath finallies st
  cases final <;>
    simp [processPackage, runPackageTests, runOneTest, runHooks, runActions]

/-- Claim C5: a test body that throws an error with a nonempty name while
`suite.abort` is unset has the error caught — the per-test execution
returns no error — and recorded as a failure whose detail message is
`name + (": " + message)` when the error message is nonempty and just
`name` otherwise; and when `suite.abort` was already set before the throw
(as in `boomTest`, which calls `suite.failed("boom")` and then throws), the
thrown error is discarded and the detail entry equals `"boom"`. -/
theorem thrown_error_caught_and_recorded :
    (∀ n m : String, n ≠ "" →
      (runOneTest "p" [] [] ⟨"t", [.throwErr n m]⟩ {}).2 = none ∧
      (runOneTest "p" [] [] ⟨"t", [.throwErr n m]⟩ {}).1.failed = 1 ∧
      (runOneTest "p" [] [] ⟨"t", [.throwErr n m]⟩ {}).1.details.lookup "p.t" =
        some (.msg (n ++ if m = "" then "" else ": " ++ m))) ∧
    ((runOneTest "p" [] [] boomTest {}).2 = none ∧
     (runOneTest "p" [] [] boomTest {}).1.failed = 1 ∧
     (runOneTest "p" [] [] boomTest {}).1.details.lookup "p.t" = some (.msg "boom")) := by
  refine ⟨?_, rfl, rfl, rfl⟩
  intro n m hn
  have hne : n ++ (if m = "" then "" else ": " ++ m) ≠ "" :=
    append_left_ne_empty n _ hn
  have hb : (n ++ (if m = "" then "" else ": " ++ m) != "") = true := by
    simpa using hne
  refine ⟨?_, ?_, ?_⟩ <;>
    simp [runOneTest, runHooks, runActions, applyAction, mkErrMsg, setResult,
      Msg.isTruthy, hb, showResult, resTruthy, isUndefined, setDetail, List.lookup]

/-- Witness for `thrown_error_caught_and_recorded`: a test throwing
`TypeError: oops` is caught and recorded as a failure with that message. -/
theorem thrown_error_caught_and_recorded_witness :
    (runOneTest "p" [] [] ⟨"t", [.throwErr "TypeError" "oops"]⟩ {}).2 = none ∧
    (runOneTest "p" [] [] ⟨"t", [.throwErr "TypeError" "oops"]⟩ {}).1.failed = 1 ∧
    (runOneTest "p" [] [] ⟨"t", [.throwErr "TypeError" "oops"]⟩ {}).1.details.lookup "p.t" =
      some (.msg ("TypeError" ++ if "oops" = "" then "" else ": " ++ "oops")) :=
  thrown_error_caught_and_recorded.1 "TypeError" "oops" (by decide)

/-- Running hooks only logs trace events: the three counters are
untouched. -/
theorem runHooks_counters (mkEv : String → Nat → Event) (sid : Nat) (hs : List Hook)
    (suite : Suite) (st : St) :
    (runHooks mkEv sid hs suite st).2.1.executed = st.executed ∧
    (runHooks mkEv sid hs suite st).2.1.passed = st.passed ∧
    (runHooks mkEv sid hs suite st).2.1.failed = st.failed := by
  induction hs generalizing suite st with
  | nil => exact ⟨rfl, rfl, rfl⟩
  | cons h rest ih =>
    simp only [runHooks]
    rcases hr : runActions suite h.actions with ⟨s', e⟩
    cases e with
    | none => simpa using ih s' _
    | some er => simp

/-- `showResult` leaves `executed` unchanged and increments exactly one of
`passed` and `failed`. -/
theorem showResult_counters (packagePath testName : String) (suite : Suite) (st : St) :
    (showResult packagePath testName suite st).executed = st.executed ∧
    (showResult packagePath testName suite st).passed +
      (showResult packagePath testName suite st).failed = st.passed + st.failed + 1 := by
  unfold showResult
  cases hres : resTruthy suite.result <;>
    cases suite.message <;>
      refine ⟨?_, ?_⟩ <;>
        simp only [hres, Bool.false_eq_true, if_true, if_false,
          apply_ite St.executed, apply_ite St.passed, apply_ite St.failed] <;>
        simp <;>
        omega

/-- The tail of one per-test iteration — `showResult` followed by the
finalize hooks — leaves `executed` unchanged and adds exactly one to
`passed + failed`. -/
theorem finish_counts (packagePath testName : String) (suite : Suite)
    (finallies : List Hook) (sid : Nat) (st : St) :
    (runHooks Event.finalRun sid finallies suite
        (showResult packagePath testName suite st)).2.1.executed = st.executed ∧
    (runHooks Event.finalRun sid finallies suite
        (showResult packagePath testName suite st)).2.1.passed +
      (runHooks Event.finalRun sid finallies suite
        (showResult packagePath testName suite st)).2.1.failed =
      st.passed + st.failed + 1 := by
  have hs := showResult_counters packagePath testName suite st
  have hf := runHooks_counters Event.finalRun sid finallies suite
    (showResult packagePath testName suite st)
  omega

/-- One per-test iteration preserves `executed = passed + failed`: a
setup-hook error leaves the counters unchanged; otherwise `executed` is
incremented once before the body and exactly one of `passed`/`failed` once
by `showResult`, whether or not the body or a finalizer throws. -/
theorem runOneTest_inv (packagePath : String) (setups finallies : List Hook) (t : Test)
    (st : St) (h : st.executed = st.passed + st.failed) :
    (runOneTest packagePath setups finallies t st).1.executed =
      (runOneTest packagePath setups finallies t st).1.passed +
      (runOneTest packagePath setups finallies t st).1.failed := by
  simp only [runOneTest]
  rcases h1 : runHooks Event.setupRun st.nextSuite setups {}
      { st with nextSuite := st.nextSuite + 1 } with ⟨s1, st1, e1⟩
  have hc1 := runHooks_counters Event.setupRun st.nextSuite setups {}
      { st with nextSuite := st.nextSuite + 1 }
  rw [h1] at hc1
  simp only at hc1
  cases e1 with
  | some e => simp only; omega
  | none =>
    simp only
    generalize runActions s1 t.actions = p
    obtain ⟨s2, err⟩ := p
    simp only
    cases err with
    | none =>
      have hc3 := finish_counts packagePath t.name s2 finallies st.nextSuite
        { st1 with executed := st1.executed + 1,
                   trace := st1.trace ++ [Event.testRun t.name st.nextSuite] }
      generalize hq : runHooks Event.finalRun st.nextSuite finallies s2
          (showResult packagePath t.name s2
            { st1 with executed := st1.executed + 1,
                       trace := st1.trace ++ [Event.testRun t.name st.nextSuite] }) = q
        at hc3 ⊢
      obtain ⟨s3, st3, e3⟩ := q
      simp only at hc3 ⊢
      omega
    | some e =>
      simp only
      generalize hS : (if !s2.abort then setResult s2 false (Msg.str (mkErrMsg e)) else s2 : Suite) = S
      have hc3 := finish_counts packagePath t.name S finallies st.nextSuite
        { st1 with executed := st1.executed + 1,
                   trace := st1.trace ++ [Event.testRun t.name st.nextSuite] }
      generalize hq : runHooks Event.finalRun st.nextSuite finallies S
          (showResult packagePath t.name S
            { st1 with executed := st1.executed + 1,
                       trace := st1.trace ++ [Event.testRun t.name st.nextSuite] }) = q
        at hc3 ⊢
      obtain ⟨s3, st3, e3⟩ := q
      simp only at hc3 ⊢
      omega

/-- The per-package test loop preserves `executed = passed + failed`. -/
theorem runPackageTests_inv (packagePath : String) (setups finallies : List Hook)
    (ts : List Test) (st : St) (h : st.executed = st.passed + st.failed) :
    (runPackageTests packagePath setups finallies ts st).1.executed =
      (runPackageTests packagePath setups finallies ts st).1.passed +
      (runPackageTests packagePath setups finallies ts st).1.failed := by
  induction ts generalizing st with
  | nil => simpa [runPackageTests]
  | cons t rest ih =>
    simp only [runPackageTests]
    rcases h1 : runOneTest packagePath setups finallies t st with ⟨st1, e1⟩
    have ht := runOneTest_inv packagePath setups finallies t st h
    rw [h1] at ht
    cases e1 with
    | some e => simpa using ht
    | none => simpa using ih st1 ht

mutual

/-- The recursive traversal preserves `executed = passed + failed`, whether
or not an error cuts it short (jointly, by mutual recursion on the tree,
with its subpackage loop `processChildren`). -/
theorem processPackage_inv (packagePath : String) (pkg : Pkg)
    (setups finallies : List Hook) (st : St)
    (h : st.executed = st.passed + st.failed) :
    (processPackage packagePath pkg setups finallies st).1.executed =
      (processPackage packagePath pkg setups finallies st).1.passed +
      (processPackage packagePath pkg setups finallies st).1.failed := by
  cases pkg with
  | mk s tests final children =>
    simp only [processPackage]
    cases tests with
    | none =>
      simp only
      exact processChildren_inv packagePath children _ _ st h
    | some ts =>
      simp only
      cases s with
      | none =>
        cases final with
        | none =>
          have hrt := runPackageTests_inv packagePath setups finallies ts st h
          generalize hq : runPackageTests packagePath setups finallies ts st = q at hrt ⊢
          obtain ⟨st1, e1⟩ := q
          cases e1 with
          | some e => simpa using hrt
          | none =>
            simp only
            exact processChildren_inv packagePath children _ _ st1 (by simpa using hrt)
        | some fh =>
          have hrt := runPackageTests_inv packagePath setups (fh :: finallies) ts st h
          generalize hq : runPackageTests packagePath setups (fh :: finallies) ts st = q
            at hrt ⊢
          obtain ⟨st1, e1⟩ := q
          cases e1 with
          | some e => simpa using hrt
          | none =>
            simp only
            exact processChildren_inv packagePath children _ _ st1 (by simpa using hrt)
      | some sh =>
        cases final with
        | none =>
          have hrt := runPackageTests_inv packagePath (setups ++ [sh]) finallies ts st h
          generalize hq : runPackageTests packagePath (setups ++ [sh]) finallies ts st = q
            at hrt ⊢
          obtain ⟨st1, e1⟩ := q
          cases e1 with
          | some e => simpa using hrt
          | none =>
            simp only
            exact processChildren_inv packagePath children _ _ st1 (by simpa using hrt)
        | some fh =>
          have hrt := runPackageTests_inv packagePath (setups ++ [sh]) (fh :: finallies) ts st h
          generalize hq : runPackageTests packagePath (setups ++ [sh]) (fh :: finallies) ts st = q
            at hrt ⊢
          obtain ⟨st1, e1⟩ := q
          cases e1 with
          | some e => simpa using hrt
          | none =>
            simp only
            exact processChildren_inv packagePath children _ _ st1 (by simpa using hrt)
termination_by sizeOf pkg

/-- The subpackage loop preserves `executed = passed + failed`. -/
theorem processChildren_inv (packagePath : String) (children : List (String × Pkg))
    (setups finallies : List Hook) (st : St)
    (h : st.executed = st.passed + st.failed) :
    (processChildren packagePath children setups finallies st).1.executed =
      (processChildren packagePath children setups finallies st).1.passed +
      (processChildren packagePath children setups finallies st).1.failed := by
  cases children with
  | nil => simpa [processChildren] using h
  | cons kv rest =>
    obtain ⟨key, sub⟩ := kv
    simp only [processChildren]
    have hp := processPackage_inv
      (if packagePath = "" then key else packagePath ++ "." ++ key) sub setups finallies st h
    generalize hq : processPackage
        (if packagePath = "" then key else packagePath ++ "." ++ key)
        sub setups finallies st = q at hp ⊢
    obtain ⟨st1, e1⟩ := q
    cases e1 with
    | some e => simpa using hp
    | none =>
      simp only
      exact processChildren_inv packagePath rest setups finallies st1 (by simpa using hp)
termination_by sizeOf children

end

/-- Claim C8: after any run the aggregate report satisfies
`executed = passed + failed`; moreover each per-test iteration with no
hooks increments `executed` exactly once and exactly one of
`passed`/`failed` exactly once. -/
theorem executed_eq_passed_add_failed :
    (∀ (packagePath : Option String) (tests : Pkg),
      (run packagePath tests).1.executed =
        (run packagePath tests).1.passed + (run packagePath tests).1.failed) ∧
    (∀ (packagePath : String) (t : Test) (st : St),
      (runOneTest packagePath [] [] t st).1.executed = st.executed + 1 ∧
      (runOneTest packagePath [] [] t st).1.passed +
        (runOneTest packagePath [] [] t st).1.failed = st.passed + st.failed + 1) := by
  constructor
  · intro pp tests
    unfold run
    cases pp with
    | none =>
      simp only
      exact processPackage_inv "" tests [] [] {} rfl
    | some p =>
      simp only
      by_cases hp : p = ""
      · rw [if_pos hp]
        exact processPackage_inv p tests [] [] {} rfl
      · rw [if_neg hp]
        cases hnav : navigate (p.splitOn ".") (some tests) [] [] with
        | error e => simp
        | ok tri =>
          obtain ⟨setups, finallies, target⟩ := tri
          simp only
          cases target with
          | none => exact processPackage_inv p (Pkg.mk none none none []) setups finallies {} rfl
          | some pkg => exact processPackage_inv p pkg setups finallies {} rfl
  · intro packagePath t st
    simp only [runOneTest, runHooks]
    generalize runActions {} t.actions = p
    obtain ⟨s2, err⟩ := p
    simp only
    cases err with
    | none =>
      have hc2 := showResult_counters packagePath t.name s2
        { st with nextSuite := st.nextSuite + 1, executed := st.executed + 1,
                  trace := st.trace ++ [Event.testRun t.name st.nextSuite] }
      simp only at hc2 ⊢
      constructor <;> omega
    | some e =>
      simp only
      generalize hS : (if !s2.abort then setResult s2 false (Msg.str (mkErrMsg e)) else s2 : Suite) = S
      have hc2 := showResult_counters packagePath t.name S
        { st with nextSuite := st.nextSuite + 1, executed := st.executed + 1,
                  trace := st.trace ++ [Event.testRun t.name st.nextSuite] }
      simp only at hc2 ⊢
      constructor <;> omega

end Testsuite
